import Mathlib

/-!
Shallow embedding of the currency-conversion / return-decomposition core of
`src/script.js` (a browser financial dashboard).

Modelling conventions:

* JavaScript numbers are modelled as rationals (`ℚ`); only `Math.sqrt` in the
  volatility function forces a passage to `ℝ`.
* Calendar dates are modelled as integer day numbers (`Int`).  The script
  compares dates by calendar day (`toDateString`) and by absolute distance of
  timestamps; at day granularity both are captured by `Int` equality and
  `Int.natAbs` of the difference.
* The script's global mutable state — `currencyRates` (current spot rate per
  currency code) and `historicalRates` (the historical rate table) — is passed
  explicitly as parameters `rates : CurrencyRates` and `hist : List RateEntry`.
* A JavaScript division whose denominator is zero yields the non-finite float
  `Infinity` (or `NaN`); `ℚ` has no such value, so computations that can
  produce it return `Option ℚ`, with `none` standing for the non-finite
  result.  `none` does NOT model a thrown/typed error: the script has no
  error channel at those points, the non-finite number simply flows onward.
-/

/-- A per-day price record, as produced by the price feed and consumed by
`convertDataToCurrency` (`src/script.js`).  The JS objects carry the fields
`date, open, high, low, close, volume, adjClose`; `open` is a Lean keyword so
the field is named `openPrice` here. -/
structure PricePoint where
  date : Int
  openPrice : ℚ
  high : ℚ
  low : ℚ
  close : ℚ
  volume : ℚ
  adjClose : ℚ
  deriving DecidableEq

instance : Inhabited PricePoint := ⟨⟨0, 0, 0, 0, 0, 0, 0⟩⟩

/-- One entry of the historical rate table `historicalRates`:
`{ date, rate }`. -/
structure RateEntry where
  date : Int
  rate : ℚ
  deriving DecidableEq

instance : Inhabited RateEntry := ⟨⟨0, 0⟩⟩

/-- The script's `currencyRates` object: currency code ↦ current spot rate. -/
abbrev CurrencyRates := String → ℚ

/-- The millisecond distance `Math.abs(targetDate - rate.date)` of
`findClosestRate`, at day granularity. -/
def distTo (d : Int) (e : RateEntry) : Nat := (d - e.date).natAbs

/-- The `for (const rate of historicalRates)` loop of `findClosestRate`
(`src/script.js:1576-1582`): starting from an accumulator, keep the entry
with the strictly smaller absolute distance (so on ties the earlier-seen
entry is kept). -/
def closestScan (d : Int) (a : RateEntry) (l : List RateEntry) : RateEntry :=
  l.foldl (fun acc e => if distTo d e < distTo d acc then e else acc) a

/-- `findClosestRate(targetDate)` (`src/script.js:1558-1585`): on an empty
table it falls back to the static current rate `currencyRates.NOK /
currencyRates.USD`; otherwise it returns the first entry with an exact
calendar-date match, and failing that scans the whole table (starting from
`historicalRates[0]`) keeping the entry with the strictly smallest absolute
distance. -/
def findClosestRate (rates : CurrencyRates) (hist : List RateEntry) (targetDate : Int) : ℚ :=
  match hist with
  | [] => rates "NOK" / rates "USD"
  | h :: _ =>
    match hist.find? (fun e => e.date == targetDate) with
    | some exactMatch => exactMatch.rate
    | none => (closestScan targetDate h hist).rate

/-- The object spread `{...item, open: item.open*rate, ...}` used by
`convertDataToCurrency`: scales the five price fields, keeps date and
volume. -/
def scalePoint (p : PricePoint) (r : ℚ) : PricePoint :=
  ⟨p.date, p.openPrice * r, p.high * r, p.low * r, p.close * r, p.volume, p.adjClose * r⟩

/-- The indexed `data.map((item, index) => ...)` of the historical-rate branch
of `convertDataToCurrency` (`src/script.js:1519-1540`): index 0 uses
`startRateOverride` when it is provided and truthy (a JS `0` is falsy and is
ignored), every other index looks up the closest historical rate for the
point's date. -/
def convertHistAux (rates : CurrencyRates) (hist : List RateEntry) (startRateOverride : Option ℚ) :
    Nat → List PricePoint → List PricePoint
  | _, [] => []
  | i, item :: rest =>
    let rate :=
      match startRateOverride with
      | some r => if i = 0 ∧ r ≠ 0 then r else findClosestRate rates hist item.date
      | none => findClosestRate rates hist item.date
    scalePoint item rate :: convertHistAux rates hist startRateOverride (i + 1) rest

/-- `convertDataToCurrency(data, targetCurrency, sourceCurrency,
startRateOverride)` (`src/script.js:1509-1555`).  Identity when the
currencies coincide; the per-date historical conversion runs only when the
table is non-empty AND the pair is exactly USD→NOK; every other case applies
the single static rate `currencyRates[target]/currencyRates[source]` to all
points. -/
def convertDataToCurrency (rates : CurrencyRates) (hist : List RateEntry)
    (data : List PricePoint) (targetCurrency sourceCurrency : String)
    (startRateOverride : Option ℚ) : List PricePoint :=
  if targetCurrency = sourceCurrency then data
  else if 0 < hist.length ∧ targetCurrency = "NOK" ∧ sourceCurrency = "USD" then
    convertHistAux rates hist startRateOverride 0 data
  else
    data.map (fun item => scalePoint item (rates targetCurrency / rates sourceCurrency))

/-- Output shape of `calculateCurrencyImpactOverTime`: `{ date, impact }`. -/
structure ImpactPoint where
  date : Int
  impact : ℚ
  deriving DecidableEq

instance : Inhabited ImpactPoint := ⟨⟨0, 0⟩⟩

/-- The `index ≥ 1` part of the map in `calculateCurrencyImpactOverTime`
(`src/script.js:1472-1501`): each point is paired with its predecessor
(`data[index-1]`) and the impact is
`(close*r - prevClose*r) - (close - prevClose)`, written exactly as in the
source. -/
def impactTail (currentRate : ℚ) : PricePoint → List PricePoint → List ImpactPoint
  | _, [] => []
  | prevItem, item :: rest =>
    ⟨item.date,
      (item.close * currentRate - prevItem.close * currentRate) - (item.close - prevItem.close)⟩
      :: impactTail currentRate item rest

/-- `calculateCurrencyImpactOverTime(data, targetCurrency, sourceCurrency)`
(`src/script.js:1461-1502`): identically-zero impacts when the currencies
coincide; otherwise impact 0 at index 0 and the day-over-day formula with the
current rate `currencyRates[target]/currencyRates[source]` afterwards. -/
def calculateCurrencyImpactOverTime (rates : CurrencyRates) (data : List PricePoint)
    (targetCurrency sourceCurrency : String) : List ImpactPoint :=
  if targetCurrency = sourceCurrency then
    data.map (fun item => ⟨item.date, 0⟩)
  else
    match data with
    | [] => []
    | first :: rest =>
      ⟨first.date, 0⟩ :: impactTail (rates targetCurrency / rates sourceCurrency) first rest

/-- Output shape of `calculateIndexWithoutCurrencyChanges`: `{ date, value }`. -/
structure ValuePoint where
  date : Int
  value : ℚ
  deriving DecidableEq

instance : Inhabited ValuePoint := ⟨⟨0, 0⟩⟩

/-- `calculateIndexWithoutCurrencyChanges(data, ...)`
(`src/script.js:1588-1632`).  Empty table ⇒ empty result (the script logs an
error and returns `[]`).  The start rate is the table entry whose date
EXACTLY matches `data[0].date` (`find` with `toDateString` equality; no
nearest-date fallback); if none exists the script again returns `[]`.
Otherwise every point is mapped to `close * startRate`.  The currency
arguments of the JS function are used only for logging and are omitted;
on an empty `data` the JS expression `data[0].date` would throw, here
`List.getD` supplies a default (the theorems below assume non-empty data
where it matters). -/
def calculateIndexWithoutCurrencyChanges (hist : List RateEntry) (data : List PricePoint) :
    List ValuePoint :=
  if hist.length = 0 then []
  else
    match hist.find? (fun e => e.date == (data.getD 0 default).date) with
    | none => []
    | some startRateData => data.map (fun item => ⟨item.date, item.close * startRateData.rate⟩)

/-- The day-over-day simple returns `(data[i].close - data[i-1].close) /
data[i-1].close` computed by the loop of `calculateVolatility`
(`src/script.js:1758-1762`). -/
def dailyReturns : List PricePoint → List ℚ
  | [] => []
  | [_] => []
  | a :: b :: rest => (b.close - a.close) / a.close :: dailyReturns (b :: rest)

/-- `calculateVolatility(data)` (`src/script.js:1757-1770`): mean and variance
of the daily returns with the variance divided by `returns.length` (the
population variance), then `Math.sqrt(variance) * Math.sqrt(252) * 100`.
With fewer than two points the returns list is empty and the JS computation
is `0/0 = NaN` throughout; that non-finite result is modelled as `none`. -/
noncomputable def calculateVolatility (data : List PricePoint) : Option ℝ :=
  let returns := dailyReturns data
  if returns.length = 0 then none
  else
    let mean : ℚ := returns.sum / (returns.length : ℚ)
    let variance : ℚ := (returns.map (fun r => (r - mean) ^ 2)).sum / (returns.length : ℚ)
    some (Real.sqrt (variance : ℝ) * Real.sqrt 252 * 100)

/-- Modelled from the spec's words, for comparison with `calculateVolatility`
only: the SAMPLE standard deviation of the daily returns (denominator
`n - 1`), times `sqrt 252`, times 100; `none` below two returns, where the
sample deviation is undefined. -/
noncomputable def sampleVolatilitySpec (data : List PricePoint) : Option ℝ :=
  let returns := dailyReturns data
  if returns.length < 2 then none
  else
    let mean : ℚ := returns.sum / (returns.length : ℚ)
    let svar : ℚ := (returns.map (fun r => (r - mean) ^ 2)).sum / ((returns.length : ℚ) - 1)
    some (Real.sqrt (svar : ℝ) * Real.sqrt 252 * 100)

/-- Population variance of a list of rationals in moment form,
`E[X²] − (E[X])²`; an independent reformulation used to state what
`calculateVolatility` actually computes. -/
def popVariance (rets : List ℚ) : ℚ :=
  (rets.map (fun r => r ^ 2)).sum / (rets.length : ℚ) - (rets.sum / (rets.length : ℚ)) ^ 2

/-- A JavaScript division, with `none` marking the non-finite result
(`Infinity`/`NaN`) that IEEE arithmetic produces on a zero denominator. -/
def jsDiv (a b : ℚ) : Option ℚ := if b = 0 then none else some (a / b)

/-- `calculateCurrencyImpact(data, targetCurrency, sourceCurrency)`
(`src/script.js:1743-1755`): 0 for equal currencies, otherwise the sum of the
impact series divided by `data[0].close * (currencyRates[target] /
currencyRates[source])`, times 100.  The division is unchecked in the source;
a zero starting value makes it non-finite (`none`). -/
def calculateCurrencyImpact (rates : CurrencyRates) (data : List PricePoint)
    (targetCurrency sourceCurrency : String) : Option ℚ :=
  if targetCurrency = sourceCurrency then some 0
  else
    let impacts := calculateCurrencyImpactOverTime rates data targetCurrency sourceCurrency
    let total := (impacts.map (fun p => p.impact)).sum
    let startValue := (data.getD 0 default).close * (rates targetCurrency / rates sourceCurrency)
    (jsDiv total startValue).map (fun q => q * 100)

/-- The per-period percentage of `updatePerformanceTable`
(`src/script.js:1812-1814`): `totalReturn = ((endPrice - startPrice) /
startPrice) * 100`, with the division unchecked in the source. -/
def totalReturnPct (startPrice endPrice : ℚ) : Option ℚ :=
  (jsDiv (endPrice - startPrice) startPrice).map (fun q => q * 100)

/-! ## Helper lemmas -/

lemma scalePoint_one (p : PricePoint) : scalePoint p 1 = p := by
  cases p
  simp [scalePoint]

lemma zipWith_scalePoint_frame :
    ∀ (l : List PricePoint) (rs : List ℚ), rs.length = l.length →
      (l.zipWith scalePoint rs).length = l.length ∧
      (l.zipWith scalePoint rs).map PricePoint.date = l.map PricePoint.date ∧
      (l.zipWith scalePoint rs).map PricePoint.volume = l.map PricePoint.volume
  | [], [], _ => by simp
  | [], _ :: _, h => by simp at h
  | _ :: _, [], h => by simp at h
  | p :: l, r :: rs, h => by
    have h' : rs.length = l.length := by simpa using h
    obtain ⟨h1, h2, h3⟩ := zipWith_scalePoint_frame l rs h'
    simp [List.zipWith, h1, h2, h3, scalePoint]

lemma zipWith_scalePoint_ones :
    ∀ l : List PricePoint, l.zipWith scalePoint (List.replicate l.length 1) = l
  | [] => rfl
  | p :: l => by
    simp [List.replicate, List.zipWith, scalePoint_one, zipWith_scalePoint_ones l]

lemma map_scalePoint_eq_zipWith (r : ℚ) :
    ∀ l : List PricePoint,
      l.map (fun item => scalePoint item r) = l.zipWith scalePoint (List.replicate l.length r)
  | [] => rfl
  | p :: l => by simp [List.replicate, List.zipWith, map_scalePoint_eq_zipWith r l]

lemma convertHistAux_zipWith (rates : CurrencyRates) (hist : List RateEntry) (o : Option ℚ) :
    ∀ (i : Nat) (l : List PricePoint), ∃ rs : List ℚ, rs.length = l.length ∧
      convertHistAux rates hist o i l = l.zipWith scalePoint rs
  | _, [] => ⟨[], rfl, rfl⟩
  | i, item :: rest => by
    obtain ⟨rs, hlen, heq⟩ := convertHistAux_zipWith rates hist o (i + 1) rest
    cases o with
    | none =>
      exact ⟨findClosestRate rates hist item.date :: rs, by simp [hlen],
        by simp only [convertHistAux, List.zipWith, heq]⟩
    | some r =>
      exact ⟨(if i = 0 ∧ r ≠ 0 then r else findClosestRate rates hist item.date) :: rs,
        by simp [hlen], by simp only [convertHistAux, List.zipWith, heq]⟩

lemma impactTail_length (r : ℚ) :
    ∀ (prev : PricePoint) (l : List PricePoint), (impactTail r prev l).length = l.length
  | _, [] => rfl
  | prev, item :: rest => by simp [impactTail, impactTail_length r item rest]

lemma getD_cons_pred (item : PricePoint) (rest : List PricePoint) (j : Nat) :
    (item :: rest).getD j default = if j = 0 then item else rest.getD (j - 1) default := by
  cases j with
  | zero => rfl
  | succ k => simp

lemma impactTail_impact_getD (r : ℚ) :
    ∀ (l : List PricePoint) (prev : PricePoint) (i : Nat), i < l.length →
      ((impactTail r prev l).getD i default).impact =
        ((l.getD i default).close * r - ((if i = 0 then prev else l.getD (i - 1) default)).close * r)
          - ((l.getD i default).close - (if i = 0 then prev else l.getD (i - 1) default).close)
  | [], _, i, h => by simp at h
  | item :: rest, prev, 0, _ => by simp [impactTail]
  | item :: rest, prev, i + 1, h => by
    have hi : i < rest.length := by simpa using h
    have ih := impactTail_impact_getD r rest item i hi
    simp only [impactTail, List.getD_cons_succ]
    rw [ih, if_neg (Nat.succ_ne_zero i), Nat.add_sub_cancel, getD_cons_pred]

/-! ## Claims -/

/-- C6: when the pair's source and target currencies are equal,
`convertDataToCurrency` returns the input itself (identity conversion) and
every entry of the currency-impact series has impact 0. -/
theorem C6_identity_conversion (rates : CurrencyRates) (hist : List RateEntry)
    (data : List PricePoint) (c : String) (o : Option ℚ) :
    convertDataToCurrency rates hist data c c o = data ∧
    ∀ p ∈ calculateCurrencyImpactOverTime rates data c c, p.impact = 0 := by
  constructor
  · simp [convertDataToCurrency]
  · intro p hp
    unfold calculateCurrencyImpactOverTime at hp
    rw [if_pos rfl] at hp
    obtain ⟨q, hq, rfl⟩ := List.mem_map.mp hp
    rfl

/-- C9: for every price series and currency pair, the output of
`convertDataToCurrency` is the input with each point scaled by some rate
(`scalePoint` touches only open/high/low/close/adjClose); hence it has the
same length, the same dates in the same order, and every point's volume
unchanged.  The embedding is a pure function of its arguments, so the input
series is never mutated. -/
theorem C9_convert_frame (rates : CurrencyRates) (hist : List RateEntry)
    (data : List PricePoint) (t s : String) (o : Option ℚ) :
    (∃ rs : List ℚ, rs.length = data.length ∧
      convertDataToCurrency rates hist data t s o = data.zipWith scalePoint rs) ∧
    (convertDataToCurrency rates hist data t s o).length = data.length ∧
    (convertDataToCurrency rates hist data t s o).map PricePoint.date = data.map PricePoint.date ∧
    (convertDataToCurrency rates hist data t s o).map PricePoint.volume
      = data.map PricePoint.volume := by
  have key : ∃ rs : List ℚ, rs.length = data.length ∧
      convertDataToCurrency rates hist data t s o = data.zipWith scalePoint rs := by
    unfold convertDataToCurrency
    by_cases h1 : t = s
    · rw [if_pos h1]
      exact ⟨List.replicate data.length 1, by simp, (zipWith_scalePoint_ones data).symm⟩
    · rw [if_neg h1]
      by_cases h2 : 0 < hist.length ∧ t = "NOK" ∧ s = "USD"
      · rw [if_pos h2]
        exact convertHistAux_zipWith rates hist o 0 data
      · rw [if_neg h2]
        exact ⟨List.replicate data.length (rates t / rates s), by simp,
          map_scalePoint_eq_zipWith _ data⟩
  obtain ⟨rs, hlen, heq⟩ := key
  obtain ⟨f1, f2, f3⟩ := zipWith_scalePoint_frame data rs hlen
  exact ⟨⟨rs, hlen, heq⟩, by rw [heq]; exact f1, by rw [heq]; exact f2, by rw [heq]; exact f3⟩

/-- C1: for a non-empty series and a pair with distinct currencies, the
currency-impact series starts at 0 and at every later index equals
`(r - 1) * (close[i] - close[i-1])`, where `r` is the current rate
`currencyRates[target] / currencyRates[source]`. -/
theorem C1_currency_impact_over_time (rates : CurrencyRates) (data : List PricePoint)
    (t s : String) (hts : t ≠ s) (hne : data ≠ []) :
    ((calculateCurrencyImpactOverTime rates data t s).getD 0 default).impact = 0 ∧
    ∀ i : Nat, 1 ≤ i → i < data.length →
      ((calculateCurrencyImpactOverTime rates data t s).getD i default).impact =
        (rates t / rates s - 1) *
          ((data.getD i default).close - (data.getD (i - 1) default).close) := by
  obtain ⟨first, rest, rfl⟩ : ∃ a l, data = a :: l := by
    cases data with
    | nil => exact absurd rfl hne
    | cons a l => exact ⟨a, l, rfl⟩
  simp only [calculateCurrencyImpactOverTime, if_neg hts]
  refine ⟨rfl, ?_⟩
  intro i h1 hlt
  obtain ⟨j, rfl⟩ : ∃ j, i = j + 1 := ⟨i - 1, by omega⟩
  have hj : j < rest.length := by
    simpa using hlt
  rw [List.getD_cons_succ, impactTail_impact_getD _ rest first j hj,
    List.getD_cons_succ, Nat.add_sub_cancel, getD_cons_pred]
  ring

def ratesStd : CurrencyRates := fun c => if c = "NOK" then 10 else 1

def mkPoint (d : Int) (c : ℚ) : PricePoint := ⟨d, c, c, c, c, 0, c⟩

def dataC1 : List PricePoint := [mkPoint 0 100, mkPoint 1 110]

/-- Witness for C1: with current rates `{NOK: 10, USD: 1}` and closes
`[100, 110]`, the theorem applies and gives `impact[1] = (10 - 1) * 10`. -/
theorem C1_witness :
    ("NOK" : String) ≠ "USD" ∧ dataC1 ≠ [] ∧
    ((calculateCurrencyImpactOverTime ratesStd dataC1 "NOK" "USD").getD 1 default).impact =
      (ratesStd "NOK" / ratesStd "USD" - 1) *
        ((dataC1.getD 1 default).close - (dataC1.getD 0 default).close) :=
  ⟨by decide, by decide,
    (C1_currency_impact_over_time ratesStd dataC1 "NOK" "USD" (by decide) (by decide)).2
      1 (by norm_num) (by norm_num [dataC1])⟩

/-! ## Rate lookup: exact match and nearest-entry scan -/

lemma find_exact_of_pairwise (d : Int) :
    ∀ hist : List RateEntry, hist.Pairwise (fun a b => a.date < b.date) →
      ∀ e ∈ hist, e.date = d → hist.find? (fun x => x.date == d) = some e
  | [], _, e, he, _ => absurd he (List.not_mem_nil e)
  | h :: t, hp, e, he, hed => by
    obtain ⟨hhead, htail⟩ := List.pairwise_cons.mp hp
    by_cases hh : h.date = d
    · have he' : e = h := by
        rcases List.mem_cons.mp he with rfl | hmem
        · rfl
        · exfalso
          have h1 := hhead e hmem
          omega
      rw [he']
      exact List.find?_cons_of_pos _ (by simpa using hh)
    · have he' : e ∈ t := by
        rcases List.mem_cons.mp he with rfl | hmem
        · exact absurd hed hh
        · exact hmem
      rw [List.find?_cons_of_neg _ (by simpa using hh)]
      exact find_exact_of_pairwise d t htail e he' hed

lemma closestScan_cons_self (d : Int) (a : RateEntry) (t : List RateEntry) :
    closestScan d a (a :: t) = closestScan d a t := by
  simp [closestScan, List.foldl_cons]

/-- The scan returns an element of `acc :: l` whose distance to `d` is
minimal, and — when `acc` comes chronologically before a sorted `l` — ties
are resolved to the earlier date. -/
lemma closestScan_spec (d : Int) :
    ∀ (l : List RateEntry) (a : RateEntry),
      (∀ x ∈ l, a.date < x.date) → l.Pairwise (fun p q => p.date < q.date) →
      closestScan d a l ∈ a :: l ∧
      ∀ x ∈ a :: l, distTo d (closestScan d a l) < distTo d x ∨
        (distTo d (closestScan d a l) = distTo d x ∧ (closestScan d a l).date ≤ x.date)
  | [], a, _, _ => by
    simp only [closestScan, List.foldl_nil]
    refine ⟨List.mem_cons_self a [], ?_⟩
    intro x hx
    rcases List.mem_cons.mp hx with rfl | hx'
    · exact Or.inr ⟨rfl, le_refl _⟩
    · exact absurd hx' (List.not_mem_nil x)
  | e :: t, a, ha, hp => by
    obtain ⟨he_t, ht⟩ := List.pairwise_cons.mp hp
    have hae : a.date < e.date := ha e (List.mem_cons_self e t)
    by_cases hlt : distTo d e < distTo d a
    · have step : closestScan d a (e :: t) = closestScan d e t := by
        simp only [closestScan, List.foldl_cons, if_pos hlt]
      obtain ⟨ihmem, ihspec⟩ := closestScan_spec d t e he_t ht
      rw [step]
      refine ⟨?_, ?_⟩
      · rcases List.mem_cons.mp ihmem with h | h
        · rw [h]; exact List.mem_cons_of_mem _ (List.mem_cons_self e t)
        · exact List.mem_cons_of_mem _ (List.mem_cons_of_mem _ h)
      · intro x hx
        rcases List.mem_cons.mp hx with rfl | hx1
        · left
          rcases ihspec e (List.mem_cons_self e t) with h | ⟨h, _⟩
          · exact lt_trans h hlt
          · rw [h]; exact hlt
        · exact ihspec x hx1
    · have hle : distTo d a ≤ distTo d e := le_of_not_lt hlt
      have step : closestScan d a (e :: t) = closestScan d a t := by
        simp only [closestScan, List.foldl_cons, if_neg hlt]
      have hat : ∀ x ∈ t, a.date < x.date := fun x hx => lt_trans hae (he_t x hx)
      obtain ⟨ihmem, ihspec⟩ := closestScan_spec d t a hat ht
      rw [step]
      refine ⟨?_, ?_⟩
      · rcases List.mem_cons.mp ihmem with h | h
        · rw [h]; exact List.mem_cons_self a _
        · exact List.mem_cons_of_mem _ (List.mem_cons_of_mem _ h)
      · intro x hx
        rcases List.mem_cons.mp hx with h | hx1
        · rw [h]; exact ihspec a (List.mem_cons_self a t)
        · rcases List.mem_cons.mp hx1 with h | hx2
          · rw [h]
            rcases ihspec a (List.mem_cons_self a t) with h1 | ⟨heq, hdate⟩
            · left; exact lt_of_lt_of_le h1 hle
            · rcases lt_or_eq_of_le hle with h2 | h2
              · left; rw [heq]; exact h2
              · right
                refine ⟨by rw [heq, h2], ?_⟩
                exact le_of_lt (lt_of_le_of_lt hdate hae)
          · exact ihspec x (List.mem_cons_of_mem _ hx2)

/-- C3: on a non-empty table sorted strictly ascending by date (the data
model's invariant), `findClosestRate` returns the rate of an exactly matching
entry when one exists; otherwise it returns the rate of an entry whose
absolute distance to the query date is minimal, and any equidistant entry has
a date no earlier than the returned one. -/
theorem C3_findClosestRate_exact_and_nearest (rates : CurrencyRates) (hist : List RateEntry)
    (d : Int) (hne : hist ≠ []) (hsorted : hist.Pairwise (fun a b => a.date < b.date)) :
    (∀ e ∈ hist, e.date = d → findClosestRate rates hist d = e.rate) ∧
    ((∀ e ∈ hist, e.date ≠ d) →
      ∃ e ∈ hist, findClosestRate rates hist d = e.rate ∧
        (∀ x ∈ hist, distTo d e ≤ distTo d x) ∧
        (∀ x ∈ hist, distTo d x = distTo d e → e.date ≤ x.date)) := by
  obtain ⟨h, t, rfl⟩ : ∃ a l, hist = a :: l := by
    cases hist with
    | nil => exact absurd rfl hne
    | cons a l => exact ⟨a, l, rfl⟩
  obtain ⟨hhead, htail⟩ := List.pairwise_cons.mp hsorted
  constructor
  · intro e he hed
    have hfind := find_exact_of_pairwise d (h :: t) hsorted e he hed
    simp only [findClosestRate, hfind]
  · intro hno
    have hfind : (h :: t).find? (fun x => x.date == d) = none := by
      apply List.find?_eq_none.mpr
      intro x hx
      simpa using hno x hx
    simp only [findClosestRate, hfind]
    rw [closestScan_cons_self]
    obtain ⟨hmem, hspec⟩ := closestScan_spec d t h hhead htail
    refine ⟨closestScan d h t, hmem, rfl, ?_, ?_⟩
    · intro x hx
      rcases hspec x hx with h1 | ⟨h1, _⟩
      · exact le_of_lt h1
      · exact le_of_eq h1
    · intro x hx hxe
      rcases hspec x hx with h1 | ⟨_, h2⟩
      · exfalso; omega
      · exact h2

def histC3 : List RateEntry := [⟨0, 10⟩, ⟨2, 12⟩]

/-- Witness for C3: the table `[{d0, 10}, {d2, 12}]` is non-empty and sorted,
and the exact-match part of the theorem gives `lookup(d0) = 10`. -/
theorem C3_witness :
    histC3 ≠ [] ∧ histC3.Pairwise (fun a b => a.date < b.date) ∧
    findClosestRate ratesStd histC3 0 = 10 :=
  ⟨by decide, by decide,
    (C3_findClosestRate_exact_and_nearest ratesStd histC3 0 (by decide) (by decide)).1
      ⟨0, 10⟩ (by decide) rfl⟩

/-! ## C2: fixed-rate counterfactual series -/

/-- C2 (amended): the start rate of `calculateIndexWithoutCurrencyChanges` is
found by EXACT date match on `data[0].date`; when it exists, every point maps
to `close * startRate`; when the table is empty or has no exactly matching
entry, the function signals failure by returning the empty series. -/
theorem C2_fixed_rate_exact_start (hist : List RateEntry) (data : List PricePoint) :
    (∀ e : RateEntry,
      hist.find? (fun en => en.date == (data.getD 0 default).date) = some e →
      calculateIndexWithoutCurrencyChanges hist data =
        data.map (fun item => (⟨item.date, item.close * e.rate⟩ : ValuePoint))) ∧
    ((hist = [] ∨ hist.find? (fun en => en.date == (data.getD 0 default).date) = none) →
      calculateIndexWithoutCurrencyChanges hist data = []) := by
  constructor
  · intro e hfind
    have hne : hist.length ≠ 0 := by
      intro h0
      rw [List.length_eq_zero.mp h0] at hfind
      simp at hfind
    unfold calculateIndexWithoutCurrencyChanges
    rw [if_neg hne]
    simp only [hfind]
  · intro hcase
    unfold calculateIndexWithoutCurrencyChanges
    rcases hcase with rfl | hnone
    · simp
    · by_cases h0 : hist.length = 0
      · rw [if_pos h0]
      · rw [if_neg h0]
        simp only [hnone]

def histC2 : List RateEntry := [⟨1, 2⟩]

def dataC2 : List PricePoint := [mkPoint 0 100]

/-- Counterexample for C2 as stated: the table has an entry one day away from
the start date, so `lookup(points[0].date)` resolves (to rate 2, making the
claimed `fixedRateValue[0] = 200`), yet the function returns the empty
series because it only accepts an exact date match. -/
theorem C2_counterexample :
    dataC2 ≠ [] ∧
    findClosestRate ratesStd histC2 ((dataC2.getD 0 default).date) = 2 ∧
    calculateIndexWithoutCurrencyChanges histC2 dataC2 = [] := by decide

def histC2w : List RateEntry := [⟨5, 2⟩]

def dataC2w : List PricePoint := [mkPoint 5 100]

/-- Witness for the amended C2: with an exact-match entry `{d5, 2}` and a
series starting on d5, the theorem gives the `close * 2` series. -/
theorem C2_witness :
    histC2w.find? (fun en => en.date == (dataC2w.getD 0 default).date) = some ⟨5, 2⟩ ∧
    calculateIndexWithoutCurrencyChanges histC2w dataC2w =
      dataC2w.map (fun item => (⟨item.date, item.close * (2 : ℚ)⟩ : ValuePoint)) :=
  ⟨by decide, (C2_fixed_rate_exact_start histC2w dataC2w).1 ⟨5, 2⟩ (by decide)⟩

/-! ## C4: behaviour on an empty / unresolvable table -/

/-- C4 (amended): on an empty table `findClosestRate` silently falls back to
the static current rate `currencyRates.NOK / currencyRates.USD` — a plain
number, with no error indication —, while `calculateIndexWithoutCurrencyChanges`
does signal an empty table by returning the empty series. -/
theorem C4_empty_table_behaviour (rates : CurrencyRates) (d : Int) (data : List PricePoint) :
    findClosestRate rates [] d = rates "NOK" / rates "USD" ∧
    calculateIndexWithoutCurrencyChanges [] data = [] :=
  ⟨rfl, rfl⟩

/-- Counterexample for C4 as stated: with current rates `{NOK: 10, USD: 1}`,
the empty-table lookup returns the plain number 10 — exactly the same value
a successful lookup in a table containing `{d5, 10}` returns — so the caller
cannot detect the degraded mode and no `RateUnavailable` condition is
signalled. -/
theorem C4_counterexample :
    findClosestRate ratesStd [] 5 = ratesStd "NOK" / ratesStd "USD" ∧
    findClosestRate ratesStd [] 5 = 10 ∧
    findClosestRate ratesStd [⟨5, 10⟩] 5 = 10 := by
  refine ⟨rfl, ?_, by decide⟩
  show ratesStd "NOK" / ratesStd "USD" = 10
  have h1 : ratesStd "NOK" = 10 := by decide
  have h2 : ratesStd "USD" = 1 := by decide
  rw [h1, h2]
  norm_num

/-! ## C5: conversion with a rate table -/

lemma convertHistAux_getD (rates : CurrencyRates) (hist : List RateEntry) (o : Option ℚ) :
    ∀ (l : List PricePoint) (i k : Nat), k < l.length →
      (convertHistAux rates hist o i l).getD k default =
        scalePoint (l.getD k default)
          (match o with
           | some r =>
             if i + k = 0 ∧ r ≠ 0 then r
             else findClosestRate rates hist (l.getD k default).date
           | none => findClosestRate rates hist (l.getD k default).date)
  | [], _, k, h => absurd h (by simp)
  | item :: rest, i, 0, _ => by
    cases o with
    | none => simp [convertHistAux]
    | some r => simp [convertHistAux]
  | item :: rest, i, k + 1, h => by
    have hk : k < rest.length := by simpa using h
    cases o with
    | none =>
      have ih := convertHistAux_getD rates hist none rest (i + 1) k hk
      simp only [convertHistAux, List.getD_cons_succ]
      exact ih
    | some r =>
      have ih := convertHistAux_getD rates hist (some r) rest (i + 1) k hk
      simp only [convertHistAux, List.getD_cons_succ]
      rw [ih]
      have heq : i + 1 + k = i + (k + 1) := by omega
      rw [heq]

lemma convertHistAux_getD_none (rates : CurrencyRates) (hist : List RateEntry)
    (l : List PricePoint) (i k : Nat) (h : k < l.length) :
    (convertHistAux rates hist none i l).getD k default =
      scalePoint (l.getD k default) (findClosestRate rates hist ((l.getD k default).date)) :=
  convertHistAux_getD rates hist none l i k h

lemma convertHistAux_getD_some (rates : CurrencyRates) (hist : List RateEntry) (r : ℚ)
    (l : List PricePoint) (i k : Nat) (h : k < l.length) :
    (convertHistAux rates hist (some r) i l).getD k default =
      scalePoint (l.getD k default)
        (if i + k = 0 ∧ r ≠ 0 then r
         else findClosestRate rates hist ((l.getD k default).date)) :=
  convertHistAux_getD rates hist (some r) l i k h

/-- C5 (amended): even with a non-empty table supplied, the per-date
historical conversion applies ONLY to the pair target = NOK, source = USD.
There, every point is scaled by the rate looked up for the point's own date,
except that index 0 is scaled by `startRateOverride` when it is provided and
non-zero (a JS falsy `0` is ignored).  Every other distinct currency pair
takes the static-rate branch: all points are uniformly scaled by
`currencyRates[target] / currencyRates[source]`, ignoring the table. -/
theorem C5_historical_conversion_only_nok_usd (rates : CurrencyRates) (hist : List RateEntry)
    (data : List PricePoint) (o : Option ℚ) (hne : hist ≠ []) :
    (∀ k : Nat, k < data.length → (1 ≤ k ∨ o = none ∨ o = some 0) →
      (convertDataToCurrency rates hist data "NOK" "USD" o).getD k default =
        scalePoint (data.getD k default)
          (findClosestRate rates hist ((data.getD k default).date))) ∧
    (∀ r : ℚ, o = some r → r ≠ 0 → 0 < data.length →
      (convertDataToCurrency rates hist data "NOK" "USD" o).getD 0 default =
        scalePoint (data.getD 0 default) r) ∧
    (∀ t s : String, t ≠ s → ¬(t = "NOK" ∧ s = "USD") →
      convertDataToCurrency rates hist data t s o =
        data.map (fun item => scalePoint item (rates t / rates s))) := by
  have hcond : 0 < hist.length ∧ ("NOK" : String) = "NOK" ∧ ("USD" : String) = "USD" :=
    ⟨List.length_pos.mpr hne, rfl, rfl⟩
  have hbranch : convertDataToCurrency rates hist data "NOK" "USD" o =
      convertHistAux rates hist o 0 data := by
    unfold convertDataToCurrency
    rw [if_neg (by decide), if_pos hcond]
  refine ⟨?_, ?_, ?_⟩
  · intro k hk hcase
    rw [hbranch]
    rcases hcase with h1 | h1 | h1
    · cases o with
      | none => exact convertHistAux_getD_none rates hist data 0 k hk
      | some r =>
        have hcon : ¬(0 + k = 0 ∧ r ≠ 0) := by
          intro hcon
          exact absurd hcon.1 (by omega)
        rw [convertHistAux_getD_some rates hist r data 0 k hk, if_neg hcon]
    · rw [h1]
      exact convertHistAux_getD_none rates hist data 0 k hk
    · have hcon : ¬(0 + k = 0 ∧ (0 : ℚ) ≠ 0) := by
        intro hcon
        exact hcon.2 rfl
      rw [h1, convertHistAux_getD_some rates hist 0 data 0 k hk, if_neg hcon]
  · intro r hr hrne hlen
    rw [hbranch, hr, convertHistAux_getD_some rates hist r data 0 0 hlen,
      if_pos ⟨rfl, hrne⟩]
  · intro t s hts hcon
    unfold convertDataToCurrency
    rw [if_neg hts, if_neg (fun h => hcon ⟨h.2.1, h.2.2⟩)]

def ratesC5 : CurrencyRates := fun c => if c = "NOK" then 10 else if c = "EUR" then 3 else 1

def histC5 : List RateEntry := [⟨0, 2⟩]

def dataC5 : List PricePoint := [mkPoint 0 100]

/-- Counterexample for C5 as stated: for the pair USD→EUR with a non-empty
rate table (entry `{d0, 2}`) and current rates `{EUR: 3, USD: 1}`, the code
takes the static branch and returns close `100 * 3 = 300`, not the
`100 * lookup(d0) = 200` the claim requires for every pair. -/
theorem C5_counterexample :
    0 < histC5.length ∧ ("EUR" : String) ≠ "USD" ∧
    ((convertDataToCurrency ratesC5 histC5 dataC5 "EUR" "USD" none).getD 0 default).close = 300 ∧
    (dataC5.getD 0 default).close *
      findClosestRate ratesC5 histC5 ((dataC5.getD 0 default).date) = 200 ∧
    (300 : ℚ) ≠ 200 := by
  refine ⟨by decide, by decide, ?_, ?_, by norm_num⟩
  · have hEU : ratesC5 "EUR" = 3 := by decide
    have hUS : ratesC5 "USD" = 1 := by decide
    have hbr : convertDataToCurrency ratesC5 histC5 dataC5 "EUR" "USD" none =
        dataC5.map (fun item => scalePoint item (ratesC5 "EUR" / ratesC5 "USD")) := by
      unfold convertDataToCurrency
      rw [if_neg (by decide), if_neg (by decide)]
    rw [hbr, hEU, hUS]
    show (100 : ℚ) * (3 / 1) = 300
    norm_num
  · have hrate : findClosestRate ratesC5 histC5 ((dataC5.getD 0 default).date) = 2 := by decide
    rw [hrate]
    show (100 : ℚ) * 2 = 200
    norm_num

def histC5w : List RateEntry := [⟨0, 2⟩, ⟨1, 3⟩]

def dataC5w : List PricePoint := [mkPoint 0 100, mkPoint 1 200]

/-- Witness for the amended C5: index 1 is scaled by the looked-up rate for
its date, index 0 by the provided override 5; and for the other pair
USD→EUR the same supplied table is ignored in favour of the uniform static
rate. -/
theorem C5_witness :
    histC5w ≠ [] ∧ 1 < dataC5w.length ∧ 0 < dataC5w.length ∧
    ("EUR" : String) ≠ "USD" ∧ ¬(("EUR" : String) = "NOK" ∧ ("USD" : String) = "USD") ∧
    (convertDataToCurrency ratesStd histC5w dataC5w "NOK" "USD" (some 5)).getD 1 default =
      scalePoint (dataC5w.getD 1 default)
        (findClosestRate ratesStd histC5w ((dataC5w.getD 1 default).date)) ∧
    (convertDataToCurrency ratesStd histC5w dataC5w "NOK" "USD" (some 5)).getD 0 default =
      scalePoint (dataC5w.getD 0 default) 5 ∧
    convertDataToCurrency ratesStd histC5w dataC5w "EUR" "USD" (some 5) =
      dataC5w.map (fun item => scalePoint item (ratesStd "EUR" / ratesStd "USD")) :=
  ⟨by decide, by decide, by decide, by decide, by decide,
    (C5_historical_conversion_only_nok_usd ratesStd histC5w dataC5w (some 5) (by decide)).1
      1 (by decide) (Or.inl (le_refl 1)),
    (C5_historical_conversion_only_nok_usd ratesStd histC5w dataC5w (some 5) (by decide)).2.1
      5 rfl (by norm_num) (by decide),
    (C5_historical_conversion_only_nok_usd ratesStd histC5w dataC5w (some 5) (by decide)).2.2
      "EUR" "USD" (by decide) (by decide)⟩

/-! ## C7: volatility -/

lemma dailyReturns_length : ∀ l : List PricePoint, (dailyReturns l).length = l.length - 1
  | [] => rfl
  | [_] => rfl
  | a :: b :: rest => by
    have ih := dailyReturns_length (b :: rest)
    simp only [dailyReturns, List.length_cons] at ih ⊢
    omega

lemma sum_sq_dev (c : ℚ) : ∀ l : List ℚ,
    (l.map (fun r => (r - c) ^ 2)).sum =
      (l.map (fun r => r ^ 2)).sum - 2 * c * l.sum + (l.length : ℚ) * c ^ 2
  | [] => by simp
  | x :: l => by
    have ih := sum_sq_dev c l
    simp only [List.map_cons, List.sum_cons, List.length_cons, ih]
    push_cast
    ring

lemma variance_moment (rets : List ℚ) (h : rets.length ≠ 0) :
    (rets.map (fun r => (r - rets.sum / (rets.length : ℚ)) ^ 2)).sum / (rets.length : ℚ) =
      popVariance rets := by
  have hn : ((rets.length : ℚ)) ≠ 0 := Nat.cast_ne_zero.mpr h
  rw [sum_sq_dev]
  unfold popVariance
  field_simp
  ring

/-- C7 (amended): for at least two points, `calculateVolatility` is the
POPULATION standard deviation (variance denominator `n`, the number of
returns) of the day-over-day returns, times `sqrt 252`, times 100 — here
stated through the independent moment form `E[X²] − (E[X])²`; with fewer
than two points the result is the non-finite `NaN`, modelled `none`. -/
theorem C7_population_volatility (data : List PricePoint) :
    (2 ≤ data.length →
      calculateVolatility data =
        some (Real.sqrt ((popVariance (dailyReturns data) : ℚ) : ℝ) *
          Real.sqrt 252 * 100)) ∧
    (data.length < 2 → calculateVolatility data = none) := by
  have hlen := dailyReturns_length data
  constructor
  · intro h2
    have hne : (dailyReturns data).length ≠ 0 := by omega
    simp only [calculateVolatility]
    rw [if_neg hne, variance_moment (dailyReturns data) hne]
  · intro h2
    have hz : (dailyReturns data).length = 0 := by omega
    simp only [calculateVolatility]
    rw [if_pos hz]

def dataV3 : List PricePoint := [mkPoint 0 1, mkPoint 1 2, mkPoint 2 3]

def dataV1 : List PricePoint := [mkPoint 0 100]

/-- Counterexample for C7 as stated: for closes `[1, 2, 3]` the returns are
`[1, 1/2]`; the code's variance (population, `/2`) is `1/16` while the sample
variance (`/1`) is `1/8`, so the code's volatility differs from the sample
standard deviation times `sqrt 252` times 100. -/
theorem C7_counterexample : calculateVolatility dataV3 ≠ sampleVolatilitySpec dataV3 := by
  have hret : dailyReturns dataV3 = [1, 1/2] := by
    simp only [dataV3, mkPoint, dailyReturns]
    norm_num
  have hcode : calculateVolatility dataV3 =
      some (Real.sqrt ((1/16 : ℚ) : ℝ) * Real.sqrt 252 * 100) := by
    simp only [calculateVolatility, hret]
    norm_num
  have hspec : sampleVolatilitySpec dataV3 =
      some (Real.sqrt ((1/8 : ℚ) : ℝ) * Real.sqrt 252 * 100) := by
    simp only [sampleVolatilitySpec, hret]
    norm_num
  have hlt : Real.sqrt ((1/16 : ℚ) : ℝ) < Real.sqrt ((1/8 : ℚ) : ℝ) := by
    apply Real.sqrt_lt_sqrt
    · push_cast
      norm_num
    · push_cast
      norm_num
  have h252 : (0 : ℝ) < Real.sqrt 252 := Real.sqrt_pos.mpr (by norm_num)
  have hmul : Real.sqrt ((1/16 : ℚ) : ℝ) * Real.sqrt 252 * 100 <
      Real.sqrt ((1/8 : ℚ) : ℝ) * Real.sqrt 252 * 100 :=
    mul_lt_mul_of_pos_right (mul_lt_mul_of_pos_right hlt h252) (by norm_num)
  rw [hcode, hspec]
  intro heq
  exact absurd (Option.some.inj heq) (ne_of_lt hmul)

/-- Witness for the amended C7, at a 3-point series (population formula) and
a 1-point series (`none`). -/
theorem C7_witness :
    2 ≤ dataV3.length ∧ dataV1.length < 2 ∧
    calculateVolatility dataV3 =
      some (Real.sqrt ((popVariance (dailyReturns dataV3) : ℚ) : ℝ) *
        Real.sqrt 252 * 100) ∧
    calculateVolatility dataV1 = none :=
  ⟨by decide, by decide,
    (C7_population_volatility dataV3).1 (by decide),
    (C7_population_volatility dataV1).2 (by decide)⟩

/-! ## C8: zero starting price -/

/-- C8 (amended): with a zero starting price the percentage computations of
the statistics code perform the division anyway; the result is the
non-finite IEEE value (`Infinity`/`NaN`, modelled `none`) flowing silently to
the caller — no `DivisionByZero` condition is signalled anywhere in the
source. -/
theorem C8_zero_start_price_division (rates : CurrencyRates) (data : List PricePoint)
    (t s : String) (e : ℚ) (hts : t ≠ s) (h0 : (data.getD 0 default).close = 0) :
    totalReturnPct 0 e = none ∧ calculateCurrencyImpact rates data t s = none := by
  constructor
  · simp [totalReturnPct, jsDiv]
  · unfold calculateCurrencyImpact
    rw [if_neg hts]
    have h0' : (data[0]?.getD default).close = 0 := by simpa using h0
    simp [jsDiv, h0']

def dataC8 : List PricePoint := [mkPoint 0 0, mkPoint 1 100]

/-- Counterexample for C8 as stated: with starting close 0 the summarizer's
percentages evaluate to the non-finite division result (`none`, the model of
JS `Infinity`/`NaN`) — they do not raise any `DivisionByZero` condition; the
source divides unconditionally. -/
theorem C8_counterexample :
    (dataC8.getD 0 default).close = 0 ∧
    totalReturnPct 0 100 = none ∧
    calculateCurrencyImpact ratesStd dataC8 "NOK" "USD" = none := by
  refine ⟨rfl, by simp [totalReturnPct, jsDiv], ?_⟩
  unfold calculateCurrencyImpact
  rw [if_neg (by decide : ("NOK" : String) ≠ "USD")]
  simp [dataC8, mkPoint, jsDiv]

/-- Witness for the amended C8. -/
theorem C8_witness :
    ("NOK" : String) ≠ "USD" ∧ (dataC8.getD 0 default).close = 0 ∧
    (totalReturnPct 0 7 = none ∧ calculateCurrencyImpact ratesStd dataC8 "NOK" "USD" = none) :=
  ⟨by decide, rfl, C8_zero_start_price_division ratesStd dataC8 "NOK" "USD" 7 (by decide) rfl⟩

/-! ## C10: static-path round trip -/

lemma map_close_scale (r : ℚ) (l : List PricePoint) :
    (l.map (fun item => scalePoint item r)).map PricePoint.close =
      l.map (fun p => p.close * r) := by
  rw [List.map_map]
  rfl

/-- C10: converting A→B then B→A on the static-rate path (no table in use)
reproduces the original close prices exactly (over `ℚ`; the rates multiply to
1 when both current rates are non-zero). -/
theorem C10_static_round_trip (rates : CurrencyRates) (data : List PricePoint) (A B : String)
    (hAB : A ≠ B) (hA : rates A ≠ 0) (hB : rates B ≠ 0) :
    (convertDataToCurrency rates []
        (convertDataToCurrency rates [] data B A none) A B none).map PricePoint.close =
      data.map PricePoint.close := by
  have hhist : ∀ t s : String, ¬(0 < ([] : List RateEntry).length ∧ t = "NOK" ∧ s = "USD") :=
    fun t s h => absurd h.1 (lt_irrefl 0)
  have hinner : convertDataToCurrency rates [] data B A none =
      data.map (fun item => scalePoint item (rates B / rates A)) := by
    unfold convertDataToCurrency
    rw [if_neg (Ne.symm hAB), if_neg (hhist B A)]
  have houter : ∀ l : List PricePoint, convertDataToCurrency rates [] l A B none =
      l.map (fun item => scalePoint item (rates A / rates B)) := by
    intro l
    unfold convertDataToCurrency
    rw [if_neg hAB, if_neg (hhist A B)]
  rw [hinner, houter, map_close_scale, List.map_map]
  have hfun : ((fun p : PricePoint => p.close * (rates A / rates B)) ∘
      fun item => scalePoint item (rates B / rates A)) = PricePoint.close := by
    funext p
    show p.close * (rates B / rates A) * (rates A / rates B) = p.close
    have h1 : rates B / rates A * (rates A / rates B) =
        rates B * rates A / (rates A * rates B) := div_mul_div_comm _ _ _ _
    have h2 : rates B * rates A = rates A * rates B := mul_comm _ _
    rw [mul_assoc, h1, h2, div_self (mul_ne_zero hA hB), mul_one]
  rw [hfun]

/-- Witness for C10 at concrete rates `{NOK: 10, USD: 1}` and two points. -/
theorem C10_witness :
    ("USD" : String) ≠ "NOK" ∧ ratesStd "USD" ≠ 0 ∧ ratesStd "NOK" ≠ 0 ∧
    (convertDataToCurrency ratesStd []
        (convertDataToCurrency ratesStd [] dataC1 "NOK" "USD" none) "USD" "NOK" none).map
      PricePoint.close = dataC1.map PricePoint.close :=
  ⟨by decide, by decide, by decide,
    C10_static_round_trip ratesStd dataC1 "USD" "NOK" (by decide) (by decide) (by decide)⟩
